import Mathlib

/-!
Shallow embedding of the core of `src/server.js` (anuwat-ai-backend):

* the per-client rate-limiting gate `rateLimitMiddleware` together with the
  `requestCounts` map it mutates,
* the chat proxy endpoint `POST /api/chat`,
* the image endpoint `POST /api/generate-image` with its prompt sanitizer
  (`prompt.replace(/[^\w\s,-]/g, '').trim()`) and `encodeURIComponent`.

Timestamps are milliseconds since the epoch, modelled as `Nat`
(mirroring `Date.now()`).  The JS `Map` becomes a function
`String → Option ClientRecord`; network effects are made explicit by
returning the number of upstream calls performed.
-/

namespace AnuwatBackend

/-- A per-client quota record, mirroring the objects stored in the
`requestCounts` map: `{ count: 1, resetTime: now + WINDOW_MS }`. -/
structure ClientRecord where
  count : Nat
  resetTime : Nat
deriving DecidableEq

/-- Outcome of the rate-limit middleware for one request: either the request
passes to `next()`, or it is answered with HTTP 429 carrying the stored
`resetTime` (which the source renders with `new Date(resetTime).toISOString()`). -/
inductive Decision where
  | admitted : Decision
  | rejected : Nat → Decision
deriving DecidableEq

/-- The `requestCounts` map keyed by client IP. -/
def QuotaState : Type := String → Option ClientRecord

/-- The map is empty at process start (`new Map()`). -/
def emptyQuota : QuotaState := fun _ => none

/-- `requestCounts.set(k, r)` / in-place mutation of the record for `k`. -/
def setRecord (s : QuotaState) (k : String) (r : ClientRecord) : QuotaState :=
  fun q => if q = k then some r else s q

/-- Source default: `const RATE_LIMIT = 50`. -/
def RATE_LIMIT : Nat := 50

/-- Source default: `const WINDOW_MS = 60 * 60 * 1000`. -/
def WINDOW_MS : Nat := 60 * 60 * 1000

/-- Embedding of `rateLimitMiddleware` from `src/server.js` lines 123-149,
parameterised over the configured `limit` (`RATE_LIMIT`) and `window`
(`WINDOW_MS`).  The four code paths are, in source order: create a fresh
record, lazily reset an expired one, reject at the limit, or increment. -/
def rateLimitMiddleware (limit window : Nat) (s : QuotaState) (clientIP : String)
    (now : Nat) : Decision × QuotaState :=
  match s clientIP with
  | none => (.admitted, setRecord s clientIP ⟨1, now + window⟩)
  | some clientData =>
    if now > clientData.resetTime then
      (.admitted, setRecord s clientIP ⟨1, now + window⟩)
    else if clientData.count ≥ limit then
      (.rejected clientData.resetTime, s)
    else
      (.admitted, setRecord s clientIP ⟨clientData.count + 1, clientData.resetTime⟩)

/-- The record-level content of one middleware step: the decision taken and
the record stored for the client afterwards (on rejection the old record is
kept unchanged).  Extracted from the same code paths as
`rateLimitMiddleware`. -/
def stepRecord (limit window : Nat) (r? : Option ClientRecord) (now : Nat) :
    Decision × ClientRecord :=
  match r? with
  | none => (.admitted, ⟨1, now + window⟩)
  | some r =>
    if now > r.resetTime then (.admitted, ⟨1, now + window⟩)
    else if r.count ≥ limit then (.rejected r.resetTime, r)
    else (.admitted, ⟨r.count + 1, r.resetTime⟩)

theorem setRecord_self (s : QuotaState) (k : String) (r : ClientRecord) :
    setRecord s k r k = some r := by
  simp [setRecord]

theorem setRecord_same (s : QuotaState) (k : String) (r : ClientRecord)
    (h : s k = some r) : setRecord s k r = s := by
  funext q
  by_cases hq : q = k
  · subst hq; simp [setRecord, h]
  · simp [setRecord, hq]

theorem rateLimitMiddleware_eq_step (limit window : Nat) (s : QuotaState)
    (c : String) (now : Nat) :
    rateLimitMiddleware limit window s c now =
      ((stepRecord limit window (s c) now).1,
        setRecord s c (stepRecord limit window (s c) now).2) := by
  unfold rateLimitMiddleware stepRecord
  cases h : s c with
  | none => rfl
  | some r =>
    by_cases h1 : now > r.resetTime
    · simp [h1]
    · by_cases h2 : r.count ≥ limit
      · simp [h1, h2, setRecord_same s c r h]
      · simp [h1, h2]

/-- The admit decision exactly as §4.1 of the spec words it: no record →
create and admit; expired window → reset and admit; under the limit →
increment and admit; otherwise reject reporting the stored reset time. -/
def admitSpec (limit window : Nat) (r? : Option ClientRecord) (now : Nat) :
    Decision × ClientRecord :=
  match r? with
  | none => (.admitted, ⟨1, now + window⟩)
  | some r =>
    if now > r.resetTime then (.admitted, ⟨1, now + window⟩)
    else if r.count < limit then (.admitted, ⟨r.count + 1, r.resetTime⟩)
    else (.rejected r.resetTime, r)

theorem stepRecord_eq_admitSpec (limit window : Nat) (r? : Option ClientRecord)
    (now : Nat) : stepRecord limit window r? now = admitSpec limit window r? now := by
  unfold stepRecord admitSpec
  cases r? with
  | none => rfl
  | some r =>
    by_cases h1 : now > r.resetTime
    · simp [h1]
    · by_cases h2 : r.count ≥ limit
      · simp [h1, h2, Nat.not_lt.mpr h2]
      · simp [h1, h2, Nat.lt_of_not_le (fun hc => h2 hc)]

/-- C2: the gate's decision and state update coincide, for every stored
state, client and instant, with the spec's four-branch `admit` algorithm
(`admitSpec`): create on first sight, lazy reset after expiry, increment
under the limit, reject otherwise reporting the stored reset time. -/
theorem c2_admit_four_branch_algorithm (limit window : Nat) (s : QuotaState)
    (c : String) (now : Nat) :
    rateLimitMiddleware limit window s c now =
      ((admitSpec limit window (s c) now).1,
        setRecord s c (admitSpec limit window (s c) now).2) := by
  rw [rateLimitMiddleware_eq_step, stepRecord_eq_admitSpec]

theorem rejected_inv (limit window : Nat) (s : QuotaState) (c : String)
    (now rt : Nat) (s' : QuotaState)
    (h : rateLimitMiddleware limit window s c now = (.rejected rt, s')) :
    s' = s ∧ ∃ r, s c = some r ∧ rt = r.resetTime ∧ limit ≤ r.count ∧ now ≤ r.resetTime := by
  unfold rateLimitMiddleware at h
  cases hc : s c with
  | none => rw [hc] at h; simp at h
  | some r =>
    rw [hc] at h
    by_cases h1 : now > r.resetTime
    · simp [h1] at h
    · by_cases h2 : r.count ≥ limit
      · simp [h1, h2] at h
        exact ⟨h.2.symm, r, rfl, h.1.symm, h2, Nat.le_of_not_lt h1⟩
      · simp [h1, h2] at h

/-- C9: a rejected request leaves the quota map untouched — the 429 branch
returns before `clientData.count++`, so neither `count` nor `resetTime`
of any client is mutated. -/
theorem c9_reject_leaves_state_unchanged (limit window : Nat) (s : QuotaState)
    (c : String) (now rt : Nat) (s' : QuotaState)
    (h : rateLimitMiddleware limit window s c now = (.rejected rt, s')) :
    s' = s :=
  (rejected_inv limit window s c now rt s' h).1

/-- A one-client state at the limit, used to instantiate the gate theorems. -/
def sampleState : QuotaState := fun c => if c = "a" then some ⟨1, 10⟩ else none

theorem c9_reject_leaves_state_unchanged_witness :
    (rateLimitMiddleware 1 10 sampleState "a" 5 = (Decision.rejected 10, sampleState)) ∧
    sampleState = sampleState :=
  ⟨rfl, c9_reject_leaves_state_unchanged 1 10 sampleState "a" 5 10 sampleState rfl⟩

/-- C3: a rejection reports exactly the stored `resetTime` of the client's
record (the value the source serialises with `toISOString()`), and a later
call by the same client at any instant strictly past that reset time is
admitted with the record reset to `count = 1`. -/
theorem c3_reject_reports_reset_then_admits (limit window : Nat) (s : QuotaState)
    (c : String) (now rt : Nat) (s' : QuotaState)
    (h : rateLimitMiddleware limit window s c now = (.rejected rt, s')) :
    (∃ r, s c = some r ∧ rt = r.resetTime) ∧
    ∀ later, rt < later →
      ∃ s'', rateLimitMiddleware limit window s' c later = (.admitted, s'') ∧
        s'' c = some ⟨1, later + window⟩ := by
  obtain ⟨hs, r, hc, hrt, _hl, _hn⟩ := rejected_inv limit window s c now rt s' h
  refine ⟨⟨r, hc, hrt⟩, fun later hlater => ?_⟩
  have hc' : s' c = some r := by rw [hs]; exact hc
  refine ⟨setRecord s' c ⟨1, later + window⟩, ?_, setRecord_self s' c _⟩
  unfold rateLimitMiddleware
  rw [hc']
  have hgt : later > r.resetTime := by omega
  simp [hgt]

theorem c3_reject_reports_reset_then_admits_witness :
    (rateLimitMiddleware 1 10 sampleState "a" 7 = (Decision.rejected 10, sampleState)) ∧
    ((∃ r, sampleState "a" = some r ∧ 10 = r.resetTime) ∧
      ∀ later, 10 < later →
        ∃ s'', rateLimitMiddleware 1 10 sampleState "a" later = (.admitted, s'') ∧
          s'' "a" = some ⟨1, later + 10⟩) :=
  ⟨rfl, c3_reject_reports_reset_then_admits 1 10 sampleState "a" 7 10 sampleState rfl⟩

/-- Sequential processing of a list of requests `(clientIP, now)` through the
middleware, threading the `requestCounts` map and logging every decision.
`Date.now()` is nondecreasing across sequential requests, which is why the
window theorems assume a sorted time column. -/
def runTrace (limit window : Nat) :
    QuotaState → List (String × Nat) → QuotaState × List (String × Nat × Decision)
  | s, [] => (s, [])
  | s, (c, t) :: rest =>
    let d := rateLimitMiddleware limit window s c t
    let tail := runTrace limit window d.2 rest
    (tail.1, (c, t, d.1) :: tail.2)

/-- Number of admitted requests of client `c` with timestamp at most `hi`
in a decision log. -/
def admittedCount (c : String) (hi : Nat) (log : List (String × Nat × Decision)) : Nat :=
  log.countP fun e => decide (e.1 = c ∧ e.2.1 ≤ hi ∧ e.2.2 = Decision.admitted)

/-- The timestamps of the requests of client `c`, in trace order. -/
def clientTimes (c : String) (trace : List (String × Nat)) : List Nat :=
  (trace.filter fun e => decide (e.1 = c)).map Prod.snd

/-- Single-client view of the gate: the same record-level steps
(`stepRecord`), applied to the one record the map holds for that client. -/
def runClient (limit window : Nat) :
    Option ClientRecord → List Nat → Option ClientRecord × List (Nat × Decision)
  | r?, [] => (r?, [])
  | r?, t :: rest =>
    let d := stepRecord limit window r? t
    let tail := runClient limit window (some d.2) rest
    (tail.1, (t, d.1) :: tail.2)

/-- Number of admitted requests with timestamp at most `hi` in a
single-client decision log. -/
def admittedCountC (hi : Nat) (log : List (Nat × Decision)) : Nat :=
  log.countP fun e => decide (e.1 ≤ hi ∧ e.2 = Decision.admitted)

theorem admittedCount_cons_ne (c : String) (hi : Nat) (c' : String) (t : Nat)
    (d : Decision) (log : List (String × Nat × Decision)) (h : c' ≠ c) :
    admittedCount c hi ((c', t, d) :: log) = admittedCount c hi log := by
  simp [admittedCount, List.countP_cons, h]

theorem admittedCount_cons_self (c : String) (hi t : Nat) (d : Decision)
    (log : List (String × Nat × Decision)) :
    admittedCount c hi ((c, t, d) :: log) =
      admittedCount c hi log + (if t ≤ hi ∧ d = Decision.admitted then 1 else 0) := by
  simp [admittedCount, List.countP_cons]

theorem admittedCountC_cons (hi t : Nat) (d : Decision) (log : List (Nat × Decision)) :
    admittedCountC hi ((t, d) :: log) =
      admittedCountC hi log + (if t ≤ hi ∧ d = Decision.admitted then 1 else 0) := by
  simp [admittedCountC, List.countP_cons]

theorem admittedCountC_append (hi : Nat) (l1 l2 : List (Nat × Decision)) :
    admittedCountC hi (l1 ++ l2) = admittedCountC hi l1 + admittedCountC hi l2 := by
  simp [admittedCountC, List.countP_append]

/-- Processing a full trace agrees, for each single client, with processing
just that client's timestamps against that client's record: the middleware
reads and writes only the entry of the requesting client. -/
theorem runTrace_proj (limit window hi : Nat) (c : String)
    (trace : List (String × Nat)) : ∀ s : QuotaState,
    (runTrace limit window s trace).1 c =
      (runClient limit window (s c) (clientTimes c trace)).1 ∧
    admittedCount c hi (runTrace limit window s trace).2 =
      admittedCountC hi (runClient limit window (s c) (clientTimes c trace)).2 := by
  induction trace with
  | nil => intro s; exact ⟨rfl, rfl⟩
  | cons e rest ih =>
    intro s
    obtain ⟨c', t⟩ := e
    have hrun : runTrace limit window s ((c', t) :: rest) =
        ((runTrace limit window (setRecord s c' (stepRecord limit window (s c') t).2) rest).1,
          (c', t, (stepRecord limit window (s c') t).1) ::
            (runTrace limit window (setRecord s c' (stepRecord limit window (s c') t).2) rest).2) := by
      simp only [runTrace]
      rw [rateLimitMiddleware_eq_step]
    by_cases hc : c' = c
    · subst hc
      have hct : clientTimes c' ((c', t) :: rest) = t :: clientTimes c' rest := by
        simp [clientTimes, List.filter_cons]
      have hrc : runClient limit window (s c') (t :: clientTimes c' rest) =
          ((runClient limit window (some (stepRecord limit window (s c') t).2)
              (clientTimes c' rest)).1,
            (t, (stepRecord limit window (s c') t).1) ::
              (runClient limit window (some (stepRecord limit window (s c') t).2)
                (clientTimes c' rest)).2) := by
        simp only [runClient]
      obtain ⟨ih1, ih2⟩ := ih (setRecord s c' (stepRecord limit window (s c') t).2)
      rw [setRecord_self] at ih1 ih2
      refine ⟨?_, ?_⟩
      · rw [hrun, hct, hrc]; exact ih1
      · rw [hrun, hct, hrc, admittedCount_cons_self, admittedCountC_cons, ih2]
    · have hct : clientTimes c ((c', t) :: rest) = clientTimes c rest := by
        simp [clientTimes, List.filter_cons, hc]
      have hsc : setRecord s c' (stepRecord limit window (s c') t).2 c = s c := by
        simp [setRecord, Ne.symm hc]
      obtain ⟨ih1, ih2⟩ := ih (setRecord s c' (stepRecord limit window (s c') t).2)
      rw [hsc] at ih1 ih2
      refine ⟨?_, ?_⟩
      · rw [hrun, hct]; exact ih1
      · rw [hrun, hct, admittedCount_cons_ne c hi c' t _ _ hc, ih2]

/-- Requests strictly past `hi` contribute nothing to the count at `hi`. -/
theorem runClient_after (limit window hi : Nat) :
    ∀ (ts : List Nat) (r? : Option ClientRecord), (∀ t ∈ ts, hi < t) →
      admittedCountC hi (runClient limit window r? ts).2 = 0 := by
  intro ts
  induction ts with
  | nil => intro r? _; rfl
  | cons t rest ih =>
    intro r? hmem
    have hhead : ¬ (t ≤ hi) := by
      have := hmem t (List.mem_cons_self t rest)
      omega
    simp only [runClient, admittedCountC_cons]
    rw [ih _ (fun u hu => hmem u (List.mem_cons_of_mem t hu))]
    simp [hhead]

/-- Inside a window whose reset instant is `R`, starting from a record
`⟨k, R⟩` with `k ≤ limit`, the gate admits exactly the increments of the
counter: afterwards the record is `⟨k + a, R⟩` where `a` is the number of
admits, and the counter never passes `limit`. -/
theorem runClient_inWindow (limit window R : Nat) :
    ∀ (ts : List Nat), (∀ t ∈ ts, t ≤ R) → ∀ k, k ≤ limit →
      ∃ a, (runClient limit window (some ⟨k, R⟩) ts).1 = some ⟨k + a, R⟩ ∧
        admittedCountC R (runClient limit window (some ⟨k, R⟩) ts).2 = a ∧
        k + a ≤ limit := by
  intro ts
  induction ts with
  | nil =>
    intro _ k hk
    exact ⟨0, by simp [runClient], rfl, by omega⟩
  | cons t rest ih =>
    intro hmem k hk
    have ht : t ≤ R := hmem t (List.mem_cons_self t rest)
    have hrest : ∀ u ∈ rest, u ≤ R := fun u hu => hmem u (List.mem_cons_of_mem t hu)
    have hnotgt : ¬ (t > R) := by omega
    by_cases hfull : k ≥ limit
    · have hstep : stepRecord limit window (some ⟨k, R⟩) t =
          (Decision.rejected R, ⟨k, R⟩) := by
        simp [stepRecord, hnotgt, hfull]
      obtain ⟨a, h1, h2, h3⟩ := ih hrest k hk
      refine ⟨a, ?_, ?_, h3⟩
      · simp only [runClient, hstep]; exact h1
      · simp only [runClient, hstep, admittedCountC_cons]
        rw [h2]
        simp
    · have hstep : stepRecord limit window (some ⟨k, R⟩) t =
          (Decision.admitted, ⟨k + 1, R⟩) := by
        simp [stepRecord, hnotgt, hfull]
      obtain ⟨a, h1, h2, h3⟩ := ih hrest (k + 1) (by omega)
      refine ⟨a + 1, ?_, ?_, by omega⟩
      · simp only [runClient, hstep]
        rw [h1]
        congr 2
        omega
      · simp only [runClient, hstep, admittedCountC_cons]
        rw [h2]
        simp [ht]

theorem runClient_append (limit window : Nat) :
    ∀ (xs ys : List Nat) (r? : Option ClientRecord),
      runClient limit window r? (xs ++ ys) =
        ((runClient limit window (runClient limit window r? xs).1 ys).1,
          (runClient limit window r? xs).2 ++
            (runClient limit window (runClient limit window r? xs).1 ys).2) := by
  intro xs
  induction xs with
  | nil => intro ys r?; simp [runClient]
  | cons x rest ih =>
    intro ys r?
    simp only [List.cons_append, runClient, List.append_eq]
    rw [ih]

/-- In a sorted timestamp list, everything `dropWhile (· ≤ hi)` keeps is
strictly past `hi`. -/
theorem sorted_gt_of_mem_dropWhile (hi : Nat) :
    ∀ ts : List Nat, List.Sorted (· ≤ ·) ts →
      ∀ t ∈ ts.dropWhile (fun x => decide (x ≤ hi)), hi < t := by
  intro ts
  induction ts with
  | nil => intro _ t ht; simp [List.dropWhile] at ht
  | cons x rest ih =>
    intro hsorted t ht
    obtain ⟨hx, hrest⟩ := List.sorted_cons.mp hsorted
    by_cases hxle : x ≤ hi
    · rw [List.dropWhile_cons_of_pos (by simpa using hxle)] at ht
      exact ih hrest t ht
    · rw [List.dropWhile_cons_of_neg (by simpa using hxle)] at ht
      rcases List.mem_cons.mp ht with h | h
      · omega
      · have := hx t h
        omega

/-- Single-client form of the window bound: starting from no record, with
nondecreasing request times, at most `limit` requests are admitted whose
time lies within `window` of the first request. -/
theorem runClient_window_bound (limit window : Nat) (hl : 1 ≤ limit)
    (t0 : Nat) (ts : List Nat) (hs : List.Sorted (· ≤ ·) (t0 :: ts)) :
    admittedCountC (t0 + window) (runClient limit window none (t0 :: ts)).2 ≤ limit := by
  have hsrest : List.Sorted (· ≤ ·) ts := (List.sorted_cons.mp hs).2
  have hfirst : stepRecord limit window none t0 = (Decision.admitted, ⟨1, t0 + window⟩) := rfl
  simp only [runClient, hfirst, admittedCountC_cons]
  have hts : ts.takeWhile (fun x => decide (x ≤ t0 + window)) ++
      ts.dropWhile (fun x => decide (x ≤ t0 + window)) = ts :=
    List.takeWhile_append_dropWhile _ _
  have hcong : admittedCountC (t0 + window)
      (runClient limit window (some ⟨1, t0 + window⟩)
        (ts.takeWhile (fun x => decide (x ≤ t0 + window)) ++
          ts.dropWhile (fun x => decide (x ≤ t0 + window)))).2 =
      admittedCountC (t0 + window)
        (runClient limit window (some ⟨1, t0 + window⟩) ts).2 := by
    rw [hts]
  rw [← hcong, runClient_append, admittedCountC_append]
  have hA : ∀ t ∈ ts.takeWhile (fun x => decide (x ≤ t0 + window)), t ≤ t0 + window := by
    intro t ht
    simpa using List.mem_takeWhile_imp ht
  obtain ⟨a, hstA, hcntA, haleq⟩ := runClient_inWindow limit window (t0 + window) _ hA 1 hl
  have hB : ∀ t ∈ ts.dropWhile (fun x => decide (x ≤ t0 + window)), t0 + window < t :=
    sorted_gt_of_mem_dropWhile (t0 + window) ts hsrest
  rw [hcntA, runClient_after limit window (t0 + window) _ _ hB]
  simp
  omega

theorem stepRecord_count_le (limit window : Nat) (hl : 1 ≤ limit)
    (r? : Option ClientRecord) (now : Nat)
    (h : ∀ r0, r? = some r0 → r0.count ≤ limit) :
    (stepRecord limit window r? now).2.count ≤ limit := by
  unfold stepRecord
  cases r? with
  | none => simpa using hl
  | some r0 =>
    have hr := h r0 rfl
    by_cases h1 : now > r0.resetTime
    · simpa [h1] using hl
    · by_cases h2 : r0.count ≥ limit
      · simpa [h1, h2] using hr
      · simp [h1, h2]
        omega

/-- Every record reachable from a state whose counters respect the limit
still respects the limit after any number of requests. -/
theorem runTrace_count_invariant (limit window : Nat) (hl : 1 ≤ limit) :
    ∀ (trace : List (String × Nat)) (s : QuotaState),
      (∀ q r, s q = some r → r.count ≤ limit) →
      ∀ q r, (runTrace limit window s trace).1 q = some r → r.count ≤ limit := by
  intro trace
  induction trace with
  | nil => intro s hs q r h; exact hs q r h
  | cons e rest ih =>
    intro s hs q r h
    obtain ⟨c', t⟩ := e
    have hrun : runTrace limit window s ((c', t) :: rest) =
        ((runTrace limit window (rateLimitMiddleware limit window s c' t).2 rest).1,
          (c', t, (rateLimitMiddleware limit window s c' t).1) ::
            (runTrace limit window (rateLimitMiddleware limit window s c' t).2 rest).2) := by
      simp only [runTrace]
    rw [hrun] at h
    refine ih (rateLimitMiddleware limit window s c' t).2 ?_ q r h
    intro q' r' h'
    rw [rateLimitMiddleware_eq_step] at h'
    simp only [setRecord] at h'
    by_cases hq : q' = c'
    · rw [if_pos hq] at h'
      have := stepRecord_count_le limit window hl (s c') t (fun r0 h0 => hs c' r0 h0)
      rw [Option.some.injEq] at h'
      rw [← h']
      exact this
    · rw [if_neg hq] at h'
      exact hs q' r' h'

/-- C1: with `1 ≤ limit` and nondecreasing request times, the number of
admitted requests of any client whose timestamp lies within
`WINDOW_DURATION` of that client's first request never exceeds `limit`;
equivalently every quota record's `count` stays at most `limit` — a
request that would push it past the limit is rejected instead of counted. -/
theorem c1_window_admissions_never_exceed_limit (limit window : Nat)
    (trace : List (String × Nat)) (c : String) (t0 : Nat) (hl : 1 ≤ limit)
    (hs : List.Sorted (· ≤ ·) (trace.map Prod.snd))
    (h0 : (clientTimes c trace).head? = some t0) :
    admittedCount c (t0 + window) (runTrace limit window emptyQuota trace).2 ≤ limit ∧
    ∀ q r, (runTrace limit window emptyQuota trace).1 q = some r → r.count ≤ limit := by
  constructor
  · obtain ⟨-, h2⟩ := runTrace_proj limit window (t0 + window) c trace emptyQuota
    rw [h2]
    cases hct : clientTimes c trace with
    | nil => rw [hct] at h0; simp at h0
    | cons t0' rest =>
      rw [hct] at h0
      simp only [List.head?_cons, Option.some.injEq] at h0
      subst h0
      have hsub : List.Sublist (clientTimes c trace) (trace.map Prod.snd) := by
        have hf : List.Sublist (trace.filter fun e => decide (e.1 = c)) trace :=
          List.filter_sublist _
        exact hf.map Prod.snd
      have hsorted : List.Sorted (· ≤ ·) (clientTimes c trace) :=
        List.Pairwise.sublist hsub hs
      rw [hct] at hsorted
      exact runClient_window_bound limit window hl t0' rest hsorted
  · exact runTrace_count_invariant limit window hl trace emptyQuota
      (by intro q r h; simp [emptyQuota] at h)

theorem c1_window_admissions_never_exceed_limit_witness :
    ((1 : Nat) ≤ 2 ∧
      List.Sorted (· ≤ ·)
        (([("a", 0), ("a", 1), ("a", 2), ("b", 3), ("a", 15)] :
           List (String × Nat)).map Prod.snd) ∧
      (clientTimes "a" [("a", 0), ("a", 1), ("a", 2), ("b", 3), ("a", 15)]).head? = some 0) ∧
    (admittedCount "a" (0 + 10)
        (runTrace 2 10 emptyQuota [("a", 0), ("a", 1), ("a", 2), ("b", 3), ("a", 15)]).2 ≤ 2 ∧
      ∀ q r, (runTrace 2 10 emptyQuota
          [("a", 0), ("a", 1), ("a", 2), ("b", 3), ("a", 15)]).1 q = some r →
        r.count ≤ 2) :=
  ⟨⟨by decide, by decide, rfl⟩,
    c1_window_admissions_never_exceed_limit 2 10
      [("a", 0), ("a", 1), ("a", 2), ("b", 3), ("a", 15)] "a" 0
      (by decide) (by decide) rfl⟩

/-- JS regex class `\w` (no unicode flag): ASCII letters, digits, underscore. -/
def isWordChar (c : Char) : Bool :=
  c.isAlphanum || c = '_'

/-- JS regex class `\s`, which is also the character set removed by
`String.prototype.trim`: ASCII whitespace controls, space, NBSP, the
Unicode space separators, the line separators and the BOM. -/
def isJsWhitespace (c : Char) : Bool :=
  c.toNat = 9 || c.toNat = 10 || c.toNat = 11 || c.toNat = 12 || c.toNat = 13 ||
  c.toNat = 32 || c.toNat = 160 || c.toNat = 5760 ||
  (8192 ≤ c.toNat && c.toNat ≤ 8202) ||
  c.toNat = 8232 || c.toNat = 8233 || c.toNat = 8239 || c.toNat = 8287 ||
  c.toNat = 12288 || c.toNat = 65279

/-- A character survives `replace(/[^\w\s,-]/g, '')` iff it is a word
character, whitespace, a comma or a hyphen. -/
def keepChar (c : Char) : Bool :=
  isWordChar c || isJsWhitespace c || c = ',' || c = '-'

/-- Embedding of `const cleanPrompt = prompt.replace(/[^\w\s,-]/g, '').trim()`
(`src/server.js` line 233): delete the non-whitelisted characters, then trim
whitespace from both ends. -/
def sanitize (s : String) : String :=
  String.mk
    ((((s.data.filter keepChar).dropWhile isJsWhitespace).reverse.dropWhile
        isJsWhitespace).reverse)

/-- Upper-case hexadecimal digit, as `encodeURIComponent` produces. -/
def hexDigitChar (n : Nat) : Char :=
  if n < 10 then Char.ofNat (48 + n) else Char.ofNat (55 + n)

/-- UTF-8 byte sequence of a code point. -/
def utf8Bytes (n : Nat) : List Nat :=
  if n < 128 then [n]
  else if n < 2048 then [192 + n / 64, 128 + n % 64]
  else if n < 65536 then [224 + n / 4096, 128 + (n / 64) % 64, 128 + n % 64]
  else [240 + n / 262144, 128 + (n / 4096) % 64, 128 + (n / 64) % 64, 128 + n % 64]

/-- Percent-escape of one byte: `%HH` with upper-case hex. -/
def percentByte (b : Nat) : List Char :=
  [Char.ofNat 37, hexDigitChar (b / 16), hexDigitChar (b % 16)]

/-- The characters ECMA-262 `encodeURIComponent` leaves unescaped:
alphanumerics and `- _ . ! ~ * ' ( )`. -/
def isUnreservedURI (c : Char) : Bool :=
  c.isAlphanum || c = '-' || c = '_' || c = '.' || c = '!' || c = '~' ||
  c = '*' || c.toNat = 39 || c = '(' || c = ')'

/-- Embedding of JS `encodeURIComponent`. -/
def encodeURIComponent (s : String) : String :=
  String.mk (s.data.flatMap fun c =>
    if isUnreservedURI c then [c] else (utf8Bytes c.toNat).flatMap percentByte)

/-- Fixed prefix of the Pollinations URL built on line 234. -/
def imageUrlPrefix : String := "https://image.pollinations.ai/prompt/"

/-- Fixed query parameters of the Pollinations URL built on line 234. -/
def imageUrlParams : String := "?width=512&height=512&nologo=true&enhance=true"

/-- Result of `POST /api/generate-image`: either HTTP 400 (missing prompt)
or the success payload `{ success: true, imageUrl, prompt }`. -/
inductive ImageResult where
  | failure (httpStatus : Nat)
  | success (imageUrl : String) (prompt : String)
deriving DecidableEq

/-- Embedding of the `/api/generate-image` handler body (lines 226-241),
for an already admitted request.  The second component counts upstream
network calls: the handler performs none — it only builds the URL and
returns it for the frontend to fetch. -/
def handleImage (prompt? : Option String) : ImageResult × Nat :=
  match prompt? with
  | none => (.failure 400, 0)
  | some p =>
    if p = "" then (.failure 400, 0)
    else
      (.success (imageUrlPrefix ++ encodeURIComponent (sanitize p) ++ imageUrlParams)
        (sanitize p), 0)

/-- One chat message `{role, content}`. -/
structure ChatMessage where
  role : String
  content : String
deriving DecidableEq

/-- The `messages` value found on the request body.  JS distinguishes only:
a falsy or non-array value (both rejected by
`!messages || !Array.isArray(messages)`) and an actual array. -/
inductive MessagesVal where
  | absent : MessagesVal
  | nonArray : MessagesVal
  | arr : List ChatMessage → MessagesVal
deriving DecidableEq

/-- One element of the upstream `choices` array; `message` may be absent. -/
structure UpstreamChoice where
  message : Option ChatMessage
deriving DecidableEq

/-- Parsed upstream response body; the `choices` field may be absent. -/
structure UpstreamBody where
  choices : Option (List UpstreamChoice)
deriving DecidableEq

/-- Upstream HTTP response: status plus parsed JSON body. -/
structure UpstreamResponse where
  status : Nat
  body : UpstreamBody
deriving DecidableEq

/-- JS `!GROQ_API_KEY`: the credential is unset or the empty string. -/
def keyMissing : Option String → Bool
  | none => true
  | some s => s = ""

/-- JS `messages && Array.isArray(messages)`. -/
def isArrayMessages : MessagesVal → Bool
  | .arr _ => true
  | _ => false

/-- `response.ok`: HTTP status in the 200-299 range. -/
def responseOk (status : Nat) : Bool :=
  decide (200 ≤ status) && decide (status ≤ 299)

/-- The shape check on line 206:
`!data.choices || !data.choices[0] || !data.choices[0].message`. -/
def malformedBody (b : UpstreamBody) : Bool :=
  match b.choices with
  | none => true
  | some [] => true
  | some (ch :: _) => ch.message.isNone

/-- The spec's error taxonomy (§7), restricted to the categories the chat
handler can produce.  The source identifies each category by a distinct
user-facing message and HTTP status. -/
inductive ErrorCategory where
  | invalid_input : ErrorCategory
  | configuration : ErrorCategory
  | auth_failure : ErrorCategory
  | upstream_overloaded : ErrorCategory
  | upstream_error : ErrorCategory
  | malformed_upstream_response : ErrorCategory
deriving DecidableEq

/-- Outcome of the chat handler: a categorised failure with the HTTP status
the handler answers with, or the upstream payload passed through. -/
inductive ChatResult where
  | failure : ErrorCategory → Nat → ChatResult
  | success : UpstreamBody → ChatResult
deriving DecidableEq

/-- Embedding of the `/api/chat` handler body (lines 154-212) for an already
admitted request.  `upstream` is the response the single `fetch` would
produce; the second component counts how many upstream calls are made.
Branches in source order: missing key → 500 configuration; falsy or
non-array `messages` → 400 invalid input; non-ok upstream status → mapped
category with the upstream status echoed; first choice missing → 500
malformed; otherwise the payload is returned unchanged. -/
def handleChat (apiKey : Option String) (messages : MessagesVal)
    (upstream : UpstreamResponse) : ChatResult × Nat :=
  if keyMissing apiKey then (.failure .configuration 500, 0)
  else if !isArrayMessages messages then (.failure .invalid_input 400, 0)
  else if !responseOk upstream.status then
    (if upstream.status = 401 then (.failure .auth_failure upstream.status, 1)
      else if upstream.status = 429 then (.failure .upstream_overloaded upstream.status, 1)
      else if upstream.status = 400 then (.failure .invalid_input upstream.status, 1)
      else (.failure .upstream_error upstream.status, 1))
  else if malformedBody upstream.body then (.failure .malformed_upstream_response 500, 1)
  else (.success upstream.body, 1)

/-- A well-formed assistant message, choice, body and 200 response, used to
instantiate the chat theorems. -/
def okMessage : ChatMessage := ⟨"assistant", "ok"⟩

def okBody : UpstreamBody := ⟨some [⟨some okMessage⟩]⟩

def okResp : UpstreamResponse := ⟨200, okBody⟩

/-- C7: with the upstream credential unset (or empty), the chat handler
fails with the `configuration` category (HTTP 500) and performs zero
upstream network calls. -/
theorem c7_missing_credential_no_network_call (key : Option String)
    (m : MessagesVal) (u : UpstreamResponse) (hk : keyMissing key = true) :
    handleChat key m u = (.failure .configuration 500, 0) := by
  simp [handleChat, hk]

theorem c7_missing_credential_no_network_call_witness :
    keyMissing none = true ∧
    handleChat none (MessagesVal.arr [okMessage]) okResp =
      (.failure .configuration 500, 0) :=
  ⟨rfl, c7_missing_credential_no_network_call none (MessagesVal.arr [okMessage]) okResp rfl⟩

/-- C4 counterexample: an empty `messages` array passes the validation
`!messages || !Array.isArray(messages)` — the request is NOT rejected with
`invalid_input`; the upstream call is attempted (call count 1) and, here,
succeeds. -/
theorem c4_counterexample_empty_array_reaches_upstream :
    handleChat (some "k") (MessagesVal.arr []) okResp = (.success okBody, 1) ∧
    (handleChat (some "k") (MessagesVal.arr []) okResp).2 ≠ 0 ∧
    (handleChat (some "k") (MessagesVal.arr []) okResp).1 ≠
      ChatResult.failure ErrorCategory.invalid_input 400 := by
  decide

/-- C4 amended: with a configured credential, a chat request whose
`messages` value is absent/falsy or not an array fails with
`invalid_input` (HTTP 400) before any upstream call; an empty array,
however, passes this validation (see the counterexample). -/
theorem c4_invalid_messages_rejected_before_upstream (key : Option String)
    (m : MessagesVal) (u : UpstreamResponse) (hk : keyMissing key = false)
    (hm : m = MessagesVal.absent ∨ m = MessagesVal.nonArray) :
    handleChat key m u = (.failure .invalid_input 400, 0) := by
  rcases hm with h | h <;> subst h <;> simp [handleChat, hk, isArrayMessages]

theorem c4_invalid_messages_rejected_before_upstream_witness :
    (keyMissing (some "k") = false ∧
      (MessagesVal.absent = MessagesVal.absent ∨
        MessagesVal.absent = MessagesVal.nonArray)) ∧
    handleChat (some "k") MessagesVal.absent okResp =
      (.failure .invalid_input 400, 0) :=
  ⟨⟨rfl, Or.inl rfl⟩,
    c4_invalid_messages_rejected_before_upstream (some "k") MessagesVal.absent okResp
      rfl (Or.inl rfl)⟩

/-- Status-to-category mapping exactly as the spec words it: 401 →
auth failure, 429 → upstream overloaded, 400 → invalid input, any other
non-2xx → generic upstream error. -/
def statusCategorySpec (status : Nat) : ErrorCategory :=
  if status = 401 then .auth_failure
  else if status = 429 then .upstream_overloaded
  else if status = 400 then .invalid_input
  else .upstream_error

/-- The amended shape condition: the body has no `choices`, an empty
`choices` array, or a first choice without a `message`. -/
def lacksUsableFirstChoice (b : UpstreamBody) : Prop :=
  b.choices = none ∨ b.choices = some [] ∨
    ∃ ch rest, b.choices = some (ch :: rest) ∧ ch.message = none

theorem malformedBody_iff (b : UpstreamBody) :
    malformedBody b = true ↔ lacksUsableFirstChoice b := by
  unfold malformedBody lacksUsableFirstChoice
  cases hb : b.choices with
  | none => simp
  | some l =>
    cases l with
    | nil => simp
    | cons ch rest => simp [Option.isNone_iff_eq_none]

/-- A body containing at least one choice that carries a message. -/
def hasChoiceWithMessage (b : UpstreamBody) : Bool :=
  match b.choices with
  | none => false
  | some l => l.any fun ch => ch.message.isSome

/-- A body whose first choice lacks a message although its second choice
has one. -/
def mixedBody : UpstreamBody := ⟨some [⟨none⟩, ⟨some okMessage⟩]⟩

/-- C6 counterexample: a 200 response whose body does contain a choice with
a message (the second one) is still answered as malformed, because the
source checks only `data.choices[0].message`; so "success with valid shape
(at least one choice with a message)" does not imply the payload is
returned. -/
theorem c6_counterexample_second_choice_ignored :
    hasChoiceWithMessage mixedBody = true ∧
    handleChat (some "k") (MessagesVal.arr [okMessage]) ⟨200, mixedBody⟩ =
      (.failure .malformed_upstream_response 500, 1) := by
  decide

/-- C6 amended: once a request with a configured key and an array `messages`
reaches the upstream call, exactly one call is made; a non-2xx status is
mapped 401 → `auth_failure`, 429 → `upstream_overloaded`, 400 →
`invalid_input`, otherwise `upstream_error` (echoing the upstream status);
a 2xx response whose body lacks `choices`, has an empty `choices` array or
whose FIRST choice lacks a message is answered `malformed_upstream_response`
(HTTP 500); a 2xx response whose first choice has a message is returned
unchanged. -/
theorem c6_upstream_result_mapping (key : Option String) (m : MessagesVal)
    (u : UpstreamResponse) (hk : keyMissing key = false)
    (hm : isArrayMessages m = true) :
    (handleChat key m u).2 = 1 ∧
    (responseOk u.status = false →
      (handleChat key m u).1 = .failure (statusCategorySpec u.status) u.status) ∧
    (responseOk u.status = true → lacksUsableFirstChoice u.body →
      (handleChat key m u).1 = .failure .malformed_upstream_response 500) ∧
    (responseOk u.status = true → ¬ lacksUsableFirstChoice u.body →
      (handleChat key m u).1 = .success u.body) := by
  refine ⟨?_, ?_, ?_, ?_⟩
  · by_cases ho : responseOk u.status
    · by_cases hmb : malformedBody u.body <;>
        simp [handleChat, hk, hm, ho, hmb]
    · by_cases h1 : u.status = 401
      · simp [handleChat, hk, hm, ho, h1, responseOk]
      · by_cases h2 : u.status = 429
        · simp [handleChat, hk, hm, ho, h1, h2, responseOk]
        · by_cases h3 : u.status = 400
          · simp [handleChat, hk, hm, ho, h1, h2, h3, responseOk]
          · simp [handleChat, hk, hm, ho, h1, h2, h3]
  · intro ho
    by_cases h1 : u.status = 401
    · simp [handleChat, hk, hm, ho, h1, statusCategorySpec, responseOk]
    · by_cases h2 : u.status = 429
      · simp [handleChat, hk, hm, ho, h1, h2, statusCategorySpec, responseOk]
      · by_cases h3 : u.status = 400
        · simp [handleChat, hk, hm, ho, h1, h2, h3, statusCategorySpec, responseOk]
        · simp [handleChat, hk, hm, ho, h1, h2, h3, statusCategorySpec]
  · intro ho hshape
    have hmb : malformedBody u.body = true := (malformedBody_iff u.body).mpr hshape
    simp [handleChat, hk, hm, ho, hmb]
  · intro ho hshape
    have hmb : malformedBody u.body = false := by
      rcases hb : malformedBody u.body with _ | _
      · rfl
      · exact absurd ((malformedBody_iff u.body).mp hb) hshape
    simp [handleChat, hk, hm, ho, hmb]

theorem c6_upstream_result_mapping_witness :
    (keyMissing (some "k") = false ∧
      isArrayMessages (MessagesVal.arr [okMessage]) = true) ∧
    ((handleChat (some "k") (MessagesVal.arr [okMessage]) ⟨401, okBody⟩).2 = 1 ∧
      (responseOk (UpstreamResponse.mk 401 okBody).status = false →
        (handleChat (some "k") (MessagesVal.arr [okMessage]) ⟨401, okBody⟩).1 =
          .failure (statusCategorySpec (UpstreamResponse.mk 401 okBody).status)
            (UpstreamResponse.mk 401 okBody).status) ∧
      (responseOk (UpstreamResponse.mk 401 okBody).status = true →
        lacksUsableFirstChoice (UpstreamResponse.mk 401 okBody).body →
        (handleChat (some "k") (MessagesVal.arr [okMessage]) ⟨401, okBody⟩).1 =
          .failure .malformed_upstream_response 500) ∧
      (responseOk (UpstreamResponse.mk 401 okBody).status = true →
        ¬ lacksUsableFirstChoice (UpstreamResponse.mk 401 okBody).body →
        (handleChat (some "k") (MessagesVal.arr [okMessage]) ⟨401, okBody⟩).1 =
          .success (UpstreamResponse.mk 401 okBody).body)) :=
  ⟨⟨rfl, rfl⟩,
    c6_upstream_result_mapping (some "k") (MessagesVal.arr [okMessage])
      ⟨401, okBody⟩ rfl rfl⟩

theorem dropWhile_head?_false {p : Char → Bool} :
    ∀ (l : List Char) (c : Char), (l.dropWhile p).head? = some c → p c = false := by
  intro l
  induction l with
  | nil => intro c hc; simp [List.dropWhile] at hc
  | cons x xs ih =>
    intro c hc
    by_cases hx : p x
    · rw [List.dropWhile_cons_of_pos hx] at hc
      exact ih c hc
    · rw [List.dropWhile_cons_of_neg hx] at hc
      simp only [List.head?_cons, Option.some.injEq] at hc
      rw [← hc]
      exact Bool.eq_false_iff.mpr hx

theorem dropWhile_getLast?_of_ne_nil {p : Char → Bool} :
    ∀ l : List Char, l.dropWhile p ≠ [] → (l.dropWhile p).getLast? = l.getLast? := by
  intro l
  induction l with
  | nil => intro h; simp [List.dropWhile] at h
  | cons x xs ih =>
    intro hne
    by_cases hx : p x
    · rw [List.dropWhile_cons_of_pos hx] at hne ⊢
      cases hxs : xs with
      | nil => rw [hxs] at hne; simp [List.dropWhile] at hne
      | cons y ys =>
        rw [← hxs, ih hne, hxs, List.getLast?_cons_cons]
    · rw [List.dropWhile_cons_of_neg hx]

/-- C5 counterexample: the source sanitizer does not collapse the double
space left behind by deleting `@#$`, so the spec's expected output
`"a cat sitting, on-a-mat"` is not what the code produces. -/
theorem c5_counterexample_whitespace_not_collapsed :
    sanitize "a cat! @#$ sitting, on-a-mat" ≠ "a cat sitting, on-a-mat" := by
  decide

/-- C5 amended: the example prompt sanitizes to `"a cat  sitting, on-a-mat"`
(the deleted `!@#$` leave their surrounding spaces in place, giving two
consecutive spaces); in general the sanitizer only deletes characters — the
output is a sublist of the input made of whitelisted characters (word
characters, whitespace, comma, hyphen) with no leading or trailing
whitespace. -/
theorem c5_sanitizer_character_whitelist :
    sanitize "a cat! @#$ sitting, on-a-mat" = "a cat  sitting, on-a-mat" ∧
    ∀ s : String,
      List.Sublist (sanitize s).data s.data ∧
      (∀ c ∈ (sanitize s).data, keepChar c = true) ∧
      (∀ c, (sanitize s).data.head? = some c → isJsWhitespace c = false) ∧
      (∀ c, (sanitize s).data.getLast? = some c → isJsWhitespace c = false) := by
  refine ⟨by decide, fun s => ?_⟩
  have hdata : (sanitize s).data =
      (((s.data.filter keepChar).dropWhile isJsWhitespace).reverse.dropWhile
        isJsWhitespace).reverse := rfl
  have hsub1 : List.Sublist
      ((((s.data.filter keepChar).dropWhile isJsWhitespace).reverse.dropWhile
        isJsWhitespace).reverse)
      ((s.data.filter keepChar).dropWhile isJsWhitespace) := by
    have h := List.dropWhile_sublist (l :=
      ((s.data.filter keepChar).dropWhile isJsWhitespace).reverse) isJsWhitespace
    have h2 := h.reverse
    rwa [List.reverse_reverse] at h2
  have hsub : List.Sublist (sanitize s).data s.data := by
    rw [hdata]
    exact (hsub1.trans
      (List.dropWhile_sublist isJsWhitespace)).trans (List.filter_sublist _)
  refine ⟨hsub, ?_, ?_, ?_⟩
  · intro c hc
    rw [hdata] at hc
    have hmem : c ∈ s.data.filter keepChar :=
      (hsub1.trans (List.dropWhile_sublist isJsWhitespace)).subset hc
    exact (List.mem_filter.mp hmem).2
  · intro c hc
    rw [hdata, List.head?_reverse] at hc
    have hne : (((s.data.filter keepChar).dropWhile isJsWhitespace).reverse.dropWhile
        isJsWhitespace) ≠ [] := by
      intro hnil
      rw [hnil] at hc
      simp at hc
    rw [dropWhile_getLast?_of_ne_nil _ hne, List.getLast?_reverse] at hc
    exact dropWhile_head?_false _ c hc
  · intro c hc
    rw [hdata, List.getLast?_reverse] at hc
    exact dropWhile_head?_false _ c hc

theorem c5_sanitizer_character_whitelist_witness :
    ('t' ∈ (sanitize " a cat! ").data ∧
      (sanitize " a cat! ").data.head? = some 'a' ∧
      (sanitize " a cat! ").data.getLast? = some 't') ∧
    (keepChar 't' = true ∧ isJsWhitespace 'a' = false ∧ isJsWhitespace 't' = false) :=
  ⟨⟨by decide, by decide, by decide⟩,
    ⟨(c5_sanitizer_character_whitelist.2 " a cat! ").2.1 't' (by decide),
      (c5_sanitizer_character_whitelist.2 " a cat! ").2.2.1 'a' (by decide),
      (c5_sanitizer_character_whitelist.2 " a cat! ").2.2.2 't' (by decide)⟩⟩

/-- C8: for an admitted image request carrying a present, non-empty prompt
the handler makes no upstream call (count 0 in every case, since the
handler only builds a URL), answers with the deterministic Pollinations URL
embedding the sanitized URL-encoded prompt and the fixed parameters
`width=512&height=512&nologo=true&enhance=true`, returns the sanitized
prompt alongside, and fails only when the prompt is absent or empty. -/
theorem c8_image_path_no_upstream_deterministic_url (p? : Option String) :
    (handleImage p?).2 = 0 ∧
    (∀ p, p? = some p → p ≠ "" →
      handleImage p? =
        (.success (imageUrlPrefix ++ encodeURIComponent (sanitize p) ++ imageUrlParams)
          (sanitize p), 0)) ∧
    (∀ st, (handleImage p?).1 = .failure st → p? = none ∨ p? = some "") := by
  refine ⟨?_, ?_, ?_⟩
  · cases p? with
    | none => rfl
    | some p => by_cases hp : p = "" <;> simp [handleImage, hp]
  · intro p hp hne
    subst hp
    simp [handleImage, hne]
  · intro st hst
    cases p? with
    | none => exact Or.inl rfl
    | some p =>
      by_cases hp : p = ""
      · exact Or.inr (by rw [hp])
      · simp [handleImage, hp] at hst

theorem c8_image_path_no_upstream_deterministic_url_witness :
    ((some "cat" : Option String) = some "cat" ∧ "cat" ≠ "") ∧
    handleImage (some "cat") =
      (.success (imageUrlPrefix ++ encodeURIComponent (sanitize "cat") ++ imageUrlParams)
        (sanitize "cat"), 0) :=
  ⟨⟨rfl, by decide⟩,
    (c8_image_path_no_upstream_deterministic_url (some "cat")).2.1 "cat" rfl (by decide)⟩

/-- C10: the non-empty check is made on the raw prompt only — a prompt that
is non-empty but sanitizes to the empty string passes the check and yields
a success whose sanitized prompt is `""` and whose URL has an empty prompt
segment. -/
theorem c10_sanitized_empty_prompt_succeeds (p : String) (hne : p ≠ "")
    (hs : sanitize p = "") :
    handleImage (some p) =
      (.success (imageUrlPrefix ++ encodeURIComponent "" ++ imageUrlParams) "", 0) := by
  simp [handleImage, hne, hs]

theorem c10_sanitized_empty_prompt_succeeds_witness :
    ("!!!" ≠ "" ∧ sanitize "!!!" = "") ∧
    handleImage (some "!!!") =
      (.success (imageUrlPrefix ++ encodeURIComponent "" ++ imageUrlParams) "", 0) :=
  ⟨⟨by decide, by decide⟩,
    c10_sanitized_empty_prompt_succeeds "!!!" (by decide) (by decide)⟩

end AnuwatBackend
